import Mathlib

/-!
# ao: offset translation, window sessions, handoff and the event loop

A shallow embedding of `main.go` of the acme client `ao`, and the properties of
its offset translator (`runeToByte`), window session (`getPositionInfo`,
`isDirty`, `getFilename`), handoff protocol (`sendChangeMessage`,
`changeWindow`), scope computation (`getScope`) and event loop (the `for`/`select`
of `main`).

Conventions of the embedding.

* A Go `string` / `[]byte` is a sequence of bytes, `GoString = List Nat`.
* A call that may end the process returns a `Res`: `ok` for a normal return,
  `fatal` for `fatalln` (diagnostic on stderr, exit status 1), `panic` for a Go
  panic, `exit0` for `os.Exit(0)`.
* The body of an acme window is a sequence of characters; its `data` file
  delivers the UTF-8 encoding of the body from the address onwards.
* `bufio.Reader` is the sequence of bytes not yet consumed; the end of the
  stream and a read error both give the error return.
* The packages the program imports (`unicode/utf8`, `bufio`, `strings`,
  `strconv`, `fmt`, `acme`, `oracle`) are given by their documented behaviour;
  `int` is 64 bits wide.
* What the program does to the outside is recorded as a trace of `Action`s, so
  that "no query is issued" or "the menu is redrawn" are statements about the
  trace. The windows of the editor do not change while one input is handled.
* `defer win.CloseFiles()` in `getPositionInfo` has no effect on what is
  modelled: every call works on the window as `acme.Open` returns it.
-/

namespace Ao

/-! ## Go strings and the outcome of a call -/

/-- A Go string: its bytes. -/
abbrev GoString := List Nat

/-- Outcome of a call that may terminate the process. -/
inductive Res (α : Type) where
  | ok : α → Res α
  | fatal : String → Res α
  | panic : String → Res α
  | exit0 : Res α
  deriving DecidableEq

/-- Sequencing: the continuation runs only after a normal return. -/
def Res.bind {α β : Type} (x : Res α) (f : α → Res β) : Res β :=
  match x with
  | .ok a => f a
  | .fatal m => .fatal m
  | .panic m => .panic m
  | .exit0 => .exit0

/-- The process ended abnormally: `fatalln` or a panic. -/
def Res.isFatal {α : Type} : Res α → Bool
  | .fatal _ => true
  | .panic _ => true
  | _ => false

/-! ## UTF-8 (package `unicode/utf8`) -/

/-- The constant `utf8.RuneError`, U+FFFD. -/
def RuneError : Nat := 0xFFFD

/-- Number of bytes of the UTF-8 encoding of the code point `r` (`utf8.RuneLen`
for a valid code point). -/
def RuneLen (r : Nat) : Nat :=
  if r < 0x80 then 1
  else if r < 0x800 then 2
  else if r < 0x10000 then 3
  else 4

/-- UTF-8 encoding of one code point. -/
def EncodeRune (r : Nat) : GoString :=
  if r < 0x80 then [r]
  else if r < 0x800 then [0xC0 + r / 64, 0x80 + r % 64]
  else if r < 0x10000 then [0xE0 + r / 4096, 0x80 + r / 64 % 64, 0x80 + r % 64]
  else [0xF0 + r / 262144, 0x80 + r / 4096 % 64, 0x80 + r / 64 % 64, 0x80 + r % 64]

/-- UTF-8 encoding of a text. -/
def encode (cs : List Char) : GoString :=
  cs.flatMap (fun c => EncodeRune c.toNat)

/-- A byte literal of the program text. -/
def lit (s : String) : GoString := encode s.data

/-- Continuation byte 0x80..0xBF. -/
def isCont (b : Nat) : Bool := 0x80 ≤ b && b ≤ 0xBF

/-- The function `utf8.DecodeRune`: the first code point of `p` and the number of
bytes it occupies. An empty input gives `(RuneError, 0)`, an invalid or
incomplete encoding gives `(RuneError, 1)`. -/
def DecodeRune (p : GoString) : Nat × Nat :=
  match p with
  | [] => (RuneError, 0)
  | p0 :: rest =>
    if p0 < 0x80 then (p0, 1)
    else if p0 < 0xC2 then (RuneError, 1)
    else if p0 < 0xE0 then
      match rest with
      | b1 :: _ =>
        if isCont b1 then ((p0 % 32) * 64 + b1 % 64, 2) else (RuneError, 1)
      | _ => (RuneError, 1)
    else if p0 < 0xF0 then
      match rest with
      | b1 :: b2 :: _ =>
        let lo := if p0 = 0xE0 then 0xA0 else 0x80
        let hi := if p0 = 0xED then 0x9F else 0xBF
        if lo ≤ b1 ∧ b1 ≤ hi ∧ isCont b2 then
          ((p0 % 16) * 4096 + (b1 % 64) * 64 + b2 % 64, 3)
        else (RuneError, 1)
      | _ => (RuneError, 1)
    else if p0 < 0xF5 then
      match rest with
      | b1 :: b2 :: b3 :: _ =>
        let lo := if p0 = 0xF0 then 0x90 else 0x80
        let hi := if p0 = 0xF4 then 0x8F else 0xBF
        if lo ≤ b1 ∧ b1 ≤ hi ∧ isCont b2 ∧ isCont b3 then
          ((p0 % 8) * 262144 + (b1 % 64) * 4096 + (b2 % 64) * 64 + b3 % 64, 4)
        else (RuneError, 1)
      | _ => (RuneError, 1)
    else (RuneError, 1)

/-- Loop `for _, r := range s`: the code points of a string with the bytes each
one occupies. `fuel` bounds the number of iterations; the length of the string
always suffices. -/
def rangeAux : Nat → GoString → List (Nat × GoString)
  | 0, _ => []
  | _ + 1, [] => []
  | fuel + 1, b :: s =>
    let sz := (DecodeRune (b :: s)).2
    ((DecodeRune (b :: s)).1, (b :: s).take sz) :: rangeAux fuel ((b :: s).drop sz)

/-- The code points of a string with their bytes, in order. -/
def range (s : GoString) : List (Nat × GoString) := rangeAux s.length s

/-- Conversion `[]rune(s)`: the code points of a string. -/
def runes (s : GoString) : List Nat := (range s).map Prod.fst

/-! ## bufio -/

/-- Method `(*bufio.Reader).ReadRune` on the unread bytes `br`: `none` when the
stream is exhausted (the error return), else the code point, its size and the
bytes left. -/
def ReadRune (br : GoString) : Option (Nat × Nat × GoString) :=
  match br with
  | [] => none
  | b :: s => some ((DecodeRune (b :: s)).1, (DecodeRune (b :: s)).2,
      (b :: s).drop (DecodeRune (b :: s)).2)

/-- Method `(*bufio.Reader).ReadString(delim)`: the bytes up to and including the
first `delim`, or `none` (the error return) when the stream ends first. -/
def ReadString (delim : Nat) : GoString → Option GoString
  | [] => none
  | b :: s => if b = delim then some [b] else (ReadString delim s).map (fun l => b :: l)

/-! ## strconv, unicode, strings, fmt -/

/-- Digits of `strconv.ParseUint(s, 10, _)`: the value of a string of ASCII
digits, `none` at the first byte that is not a digit. -/
def parseDigits : GoString → Nat → Option Nat
  | [], acc => some acc
  | b :: s, acc =>
    if 48 ≤ b ∧ b ≤ 57 then parseDigits s (acc * 10 + (b - 48)) else none

/-- The call `strconv.ParseInt(s, 10, 0)` with a 64-bit `int`: an optional sign
followed by at least one digit, whose value fits in an `int`; `none` is the error
return (syntax or range). -/
def ParseInt (s : GoString) : Option Int :=
  match s with
  | [] => none
  | b :: t =>
    let neg : Bool := b = 45
    let ds := if b = 43 ∨ b = 45 then t else b :: t
    match ds with
    | [] => none
    | _ :: _ =>
      match parseDigits ds 0 with
      | none => none
      | some un =>
        if neg then (if un ≤ 2 ^ 63 then some (-(un : Int)) else none)
        else (if un < 2 ^ 63 then some (un : Int) else none)

/-- The predicate `unicode.IsSpace`. -/
def IsSpace (r : Nat) : Bool :=
  if r ≤ 0xFF then
    r = 9 || r = 10 || r = 11 || r = 12 || r = 13 || r = 32 || r = 0x85 || r = 0xA0
  else
    r = 0x1680 || (0x2000 ≤ r && r ≤ 0x200A) || r = 0x2028 || r = 0x2029 ||
      r = 0x202F || r = 0x205F || r = 0x3000

/-- Second loop of `strings.FieldsFunc(s, unicode.IsSpace)`: `cur` is the field
being read (`none` while looking for the start of a field). -/
def FieldsLoop : List (Nat × GoString) → Option GoString → List GoString
  | [], none => []
  | [], some f => [f]
  | (r, bs) :: rest, cur =>
    if IsSpace r then
      match cur with
      | some f => f :: FieldsLoop rest none
      | none => FieldsLoop rest none
    else
      match cur with
      | some f => FieldsLoop rest (some (f ++ bs))
      | none => FieldsLoop rest (some bs)

/-- The function `strings.Fields`: the maximal runs of non-space code points. -/
def Fields (s : GoString) : List GoString := FieldsLoop (range s) none

/-- Decimal digits of `n`, most significant first, in front of `acc`. -/
def digitsAux : Nat → Nat → GoString → GoString
  | 0, _, acc => acc
  | fuel + 1, n, acc =>
    if n < 10 then (48 + n) :: acc else digitsAux fuel (n / 10) ((48 + n % 10) :: acc)

/-- The verb `%d` applied to a non-negative `int`. -/
def Itoa (n : Nat) : GoString := digitsAux (n + 1) n []

/-- The call `fmt.Sprintf("%s:#%d,#%d", fname, b0, b1)`. -/
def formatPos (fname : GoString) (b0 b1 : Nat) : GoString :=
  fname ++ lit ":#" ++ Itoa b0 ++ lit ",#" ++ Itoa b1

/-- The call `fmt.Sprintf(modes, fname)` with the menu text `modes` of the
program. -/
def formatModes (fname : GoString) : GoString :=
  lit "Current file is: " ++ fname ++
    lit "\ncallees\ncallers \ncallgraph \ncallstack \npeers\npointsto\n\ndefinition\ndescribe \nfreevars \n\nimplements \nreferrers\n"

/-- The output of `fmt.Fprintln` for string operands: separated by spaces,
ended by a newline. -/
def Sprintln : List GoString → GoString
  | [] => [10]
  | [a] => a ++ [10]
  | a :: b :: rest => a ++ 32 :: Sprintln (b :: rest)

/-! ## The acme window of package `acme` -/

/-- An opened acme window, as far as the program looks at it. `tag` and `ctl` are
what `ReadAll` returns (`none` for an error), `dot` the selection in characters,
`addr` the address register, `addrOpen` whether the `addr` file is open;
`ctlOk` and `addrOk` say whether control messages and operations on the `addr`
file succeed. -/
structure Win where
  tag : Option GoString
  ctl : Option GoString
  body : List Char
  dot : Nat × Nat
  addr : Nat × Nat
  addrOpen : Bool
  ctlOk : Bool
  addrOk : Bool
  deriving DecidableEq

/-- Opening the `addr` file; acme resets the address to `(0, 0)` on the first
open. -/
def Win.openAddr (w : Win) : Win :=
  if w.addrOpen then w else { w with addrOpen := true, addr := (0, 0) }

/-- Method `(*acme.Win).ReadAddr`. -/
def Win.ReadAddr (w : Win) : Win × Option (Nat × Nat) :=
  if w.addrOk then (w.openAddr, some w.openAddr.addr) else (w, none)

/-- The call `win.Ctl("addr=dot")`: the address becomes the selection. -/
def Win.CtlAddrDot (w : Win) : Option Win :=
  if w.ctlOk then some { w with addr := w.dot } else none

/-- The call `win.Addr("0")`: the address becomes the start of the body. -/
def Win.Addr0 (w : Win) : Option Win :=
  if w.addrOk then some { w.openAddr with addr := (0, 0) } else none

/-- What reading the `data` file delivers: the encoded body from the address
to the end. -/
def Win.data (w : Win) : GoString := encode (w.body.drop w.addr.1)

/-- The editor: `acme.Open(id, nil)` gives the window, or `none` for the error
return. -/
structure Env where
  Open : Int → Option Win

/-- An `acme.Event`. -/
structure Event where
  C1 : Nat
  C2 : Nat
  Q0 : Nat
  Q1 : Nat
  Flag : Nat
  Nr : Nat
  Text : GoString
  Arg : GoString
  Loc : GoString
  deriving DecidableEq

/-! ## The analyzer (package `oracle`) -/

/-- A parsed `*oracle.QueryPos`. -/
structure QueryPos where
  id : Nat
  deriving DecidableEq

/-- The loaded program and the oracle built on it: `ParseQueryPos(prog, pos,
false)` and `oracl.Query(mode, qp)`, each giving a value or the text of an
error; a result is given by what its `WriteTo` writes. -/
structure Oracle where
  ParseQueryPos : GoString → Except GoString QueryPos
  Query : GoString → QueryPos → Except GoString GoString

/-! ## Observable actions -/

/-- What the program does to the outside: opening a target window, operations
on its own window, the calls to the analyzer, and traffic on a rendezvous
connection. -/
inductive Action where
  | Open (id : Int)
  | Addr (a : GoString)
  | Write (file : GoString) (b : GoString)
  | Ctl (cmd : GoString)
  | WriteEvent (e : Event)
  | ParseQueryPos (pos : GoString)
  | Query (mode : GoString) (qp : QueryPos)
  | ConnWrite (b : GoString)
  | ConnClose
  deriving DecidableEq

/-- A computation: the actions performed, in order, and how it ended. -/
structure Run (α : Type) where
  trace : List Action
  res : Res α
  deriving DecidableEq

/-- Sequencing of computations: the actions of the second follow those of the
first, and the second runs only if the first returned. -/
def Run.bind {α β : Type} (x : Run α) (f : α → Run β) : Run β :=
  match x.res with
  | .ok a => ⟨x.trace ++ (f a).trace, (f a).res⟩
  | .fatal m => ⟨x.trace, .fatal m⟩
  | .panic m => ⟨x.trace, .panic m⟩
  | .exit0 => ⟨x.trace, .exit0⟩

instance : Monad Run where
  pure a := ⟨[], .ok a⟩
  bind := Run.bind

/-- One action. -/
def act (a : Action) : Run Unit := ⟨[a], .ok ()⟩

/-- A call without actions. -/
def lift {α : Type} (r : Res α) : Run α := ⟨[], r⟩

/-- The function `fatalln`. -/
def fatalln {α : Type} (msg : String) : Run α := ⟨[], .fatal msg⟩

/-- A Go panic. -/
def goPanic {α : Type} (msg : String) : Run α := ⟨[], .panic msg⟩

/-! ## The program -/

/-- Loop `for i := 0; i < n; i++ { _, sz, err := br.ReadRune(); if err != nil
{ panic("whut") }; b += sz }` of `runeToByte`: the offset reached and the
reader. -/
def readRunes : Nat → GoString → Nat → Res (Nat × GoString)
  | 0, br, b => .ok (b, br)
  | n + 1, br, b =>
    match ReadRune br with
    | none => .panic "whut"
    | some (_, sz, br') => readRunes n br' (b + sz)

/-- Function `runeToByte`. -/
def runeToByte (win : Win) (q0 q1 : Nat) : Res (Nat × Nat) :=
  match win.Addr0 with
  | none => .fatal "Cannot decode unicode: "
  | some win =>
    let br := win.data
    (readRunes q0 br 0).bind fun (b0, br) =>
    (readRunes (q1 - q0) br b0).bind fun (b1, _) =>
    .ok (b0, b1)

/-- Function `isDirty`. -/
def isDirty (win : Win) : Res Bool :=
  match win.ctl with
  | none => .panic "can't read info"
  | some ctl =>
    let f := Fields ctl
    if f.length = 0 then .panic "can't read info"
    else
      match f[4]? with
      | none => .panic "index out of range"
      | some f4 => .ok (f4 != lit "0")

/-- Function `getFilename`. -/
def getFilename (win : Win) : Res GoString :=
  match win.tag with
  | none => .fatal "Cannot get current file name: "
  | some s =>
    match (Fields s)[0]? with
    | none => .panic "index out of range"
    | some f0 => .ok f0

/-- Body of `getPositionInfo` once the window is open. -/
def positionOf (win : Win) : Res (GoString × Nat × Nat) :=
  (getFilename win).bind fun name =>
  (isDirty win).bind fun dirty =>
  if dirty then .fatal "window must be non-dirty to query. Save the file and try again"
  else
    let win := win.ReadAddr.1
    match win.CtlAddrDot with
    | none => .fatal "Cannot read acme address: "
    | some win =>
      match win.ReadAddr with
      | (_, none) => .fatal "Cannot read acme address: "
      | (win, some (q0, q1)) =>
        (runeToByte win q0 q1).bind fun (b0, b1) =>
        .ok (name, b0, b1)

/-- Function `getPositionInfo`. -/
def getPositionInfo (env : Env) (idstr : GoString) : Run (GoString × Nat × Nat) :=
  match ParseInt idstr with
  | none => goPanic "non-numerical winid"
  | some id => do
    act (.Open id)
    match env.Open id with
    | none => fatalln "Cannot open acme window: "
    | some win => lift (positionOf win)

/-- Function `writeModes`, on the program's own window. -/
def writeModes (env : Env) (idstr : GoString) : Run Unit := do
  let (fname, _, _) ← getPositionInfo env idstr
  act (.Addr (lit ","))
  act (.Write (lit "data") (formatModes fname))

/-- Loop of `getScope` over the arguments. -/
def getScopeLoop (env : Env) (winid : GoString) : List GoString → Run (List GoString)
  | [] => pure []
  | s :: rest => do
    let scp ← if s = lit "." then (do
        let (fname, _, _) ← getPositionInfo env winid
        pure fname)
      else pure s
    let scope ← getScopeLoop env winid rest
    pure (scp :: scope)

/-- Function `getScope`. -/
def getScope (env : Env) (arg : List GoString) (winid : GoString) : Run (List GoString) :=
  getScopeLoop env winid (if arg.length = 0 then [lit "."] else arg)

/-- A `net.Conn`: the bytes the peer sends, and whether writing succeeds. -/
structure Conn where
  input : GoString
  writable : Bool
  deriving DecidableEq

/-- Function `changeWindow`, on a reader over the bytes of a connection. -/
def changeWindow (b : GoString) : Res GoString :=
  match ReadString 10 b with
  | none => .panic "EOF"
  | some idstr => .ok (idstr.take (idstr.length - 1))

/-- Function `sendChangeMessage`. -/
def sendChangeMessage (c : Conn) (winid : GoString) : Run Unit :=
  if c.writable then do
    act (.ConnWrite (Sprintln [winid]))
    act .ConnClose
  else fatalln "cannot change window: "

/-- The variables of `main` that the loop works on: the target window id and
the analyzer. -/
structure LoopState where
  winid : GoString
  oracl : Oracle

/-- What the `select` of the loop receives: an event, the closing of the event
channel, or an accepted connection. -/
inductive Input where
  | event (e : Event)
  | closed
  | conn (c : Conn)

/-- One iteration of the `for`/`select` loop of `main`. -/
def loopStep (env : Env) (st : LoopState) : Input → Run LoopState
  | .closed => ⟨[], .exit0⟩
  | .event e =>
    if e.C1 = 77 ∧ e.C2 = 88 then do
      let mode := e.Text
      act (.Addr (lit ","))
      act (.Write (lit "data") (lit "querying oracle\n"))
      let (fname, b0, b1) ← getPositionInfo env st.winid
      let posStr := formatPos fname b0 b1
      act (.ParseQueryPos posStr)
      match st.oracl.ParseQueryPos posStr with
      | .error _ => fatalln "Cannot get position: "
      | .ok qp =>
        act (.Query mode qp)
        match st.oracl.Query mode qp with
        | .error err => do
          writeModes env st.winid
          act (.Write (lit "data") (Sprintln [lit "Cannot query oracle: ", err]))
          act (.Ctl (lit "clean"))
          pure st
        | .ok res => do
          writeModes env st.winid
          act (.Write (lit "data") res)
          act (.Ctl (lit "clean"))
          pure st
    else if e.Flag &&& 1 ≠ 0 then do
      act (.WriteEvent e)
      pure st
    else pure st
  | .conn c => do
    let str ← lift (changeWindow c.input)
    if str = [] then goPanic "bad connection"
    else do
      let st := { st with winid := str }
      act .ConnClose
      writeModes env st.winid
      act (.Ctl (lit "clean"))
      pure st

/-- The loop over the inputs received, in order; it stops when the process
ends. -/
def runLoop (env : Env) : LoopState → List Input → Run LoopState
  | st, [] => pure st
  | st, i :: is => (loopStep env st i).bind fun st => runLoop env st is

/-! ## Numerals, and a concrete editor for the examples -/

/-- An ASCII digit. -/
def isDigit (b : Nat) : Bool := 48 ≤ b && b ≤ 57

/-- A decimal integer numeral: an optional sign followed by one or more ASCII
digits. -/
def isNumeral (s : GoString) : Bool :=
  match s with
  | [] => false
  | b :: t =>
    if b = 43 ∨ b = 45 then !t.isEmpty && t.all isDigit else (b :: t).all isDigit

/-- Window 5: the saved file `/tmp/foo.go`, with characters 10 to 14 selected. -/
def fooWin : Win :=
  { tag := some (lit "/tmp/foo.go Del Snarf | Look "),
    ctl := some (lit "          5          30          29           0           0 "),
    body := "package main\n\nfunc main() {}\n".data,
    dot := (10, 14), addr := (0, 0), addrOpen := false, ctlOk := true, addrOk := true }

/-- Window 7: the saved file `/tmp/bar.go`, whose body holds characters of one,
two, three and four bytes; characters 1 to 4 are selected. -/
def barWin : Win :=
  { tag := some (lit "/tmp/bar.go Del Snarf | Look "),
    ctl := some (lit "          7          30           5           0           0 "),
    body := "aé€😀x".data,
    dot := (1, 4), addr := (2, 3), addrOpen := false, ctlOk := true, addrOk := true }

/-- Window 9: `/tmp/foo.go` with unsaved changes (dirty field 1). -/
def dirtyWin : Win :=
  { fooWin with ctl := some (lit "          9          30          29           0           1 ") }

/-- An editor with the windows 5, 7 and 9. -/
def editor : Env :=
  { Open := fun id =>
      if id = 5 then some fooWin
      else if id = 7 then some barWin
      else if id = 9 then some dirtyWin
      else none }

/-- An analyzer that accepts every position, fails for mode `callers` and
succeeds for every other mode. -/
def analyzer : Oracle :=
  { ParseQueryPos := fun pos => .ok ⟨pos.length⟩,
    Query := fun mode _ =>
      if mode = lit "callers" then .error (lit "no main package")
      else .ok (lit "defined here\n") }

/-- A middle-button activation on the menu text `text`. -/
def click (text : String) : Event :=
  { C1 := 77, C2 := 88, Q0 := 0, Q1 := 0, Flag := 0, Nr := text.length, Text := lit text,
    Arg := [], Loc := [] }

/-! ## Unfolding of sequencing -/

theorem pure_def {α : Type} (a : α) : (pure a : Run α) = ⟨[], .ok a⟩ := rfl
theorem bind_def {α β : Type} (x : Run α) (f : α → Run β) : (x >>= f) = Run.bind x f := rfl

/-! ## UTF-8: decoding inverts encoding -/

theorem char_valid (c : Char) :
    c.toNat < 0xD800 ∨ (0xDFFF < c.toNat ∧ c.toNat < 0x110000) := by
  have := c.valid
  simpa [UInt32.isValidChar, Nat.isValidChar, Char.toNat] using this

theorem RuneLen_eq_utf8Size (c : Char) : RuneLen c.toNat = c.utf8Size := by
  unfold RuneLen Char.utf8Size Char.toNat
  simp only [UInt32.le_def, BitVec.le_def]
  have h1 : (UInt32.ofNatCore 127 Char.utf8Size.proof_1).toBitVec.toNat = 127 := rfl
  have h2 : (UInt32.ofNatCore 2047 Char.utf8Size.proof_2).toBitVec.toNat = 2047 := rfl
  have h3 : (UInt32.ofNatCore 65535 Char.utf8Size.proof_3).toBitVec.toNat = 65535 := rfl
  rw [h1, h2, h3]
  simp only [UInt32.toNat]
  split_ifs <;> first | rfl | omega

theorem EncodeRune_length (r : Nat) : (EncodeRune r).length = RuneLen r := by
  unfold EncodeRune RuneLen
  split_ifs <;> rfl

theorem DecodeRune_EncodeRune (c : Char) (rest : GoString) :
    DecodeRune (EncodeRune c.toNat ++ rest) = (c.toNat, RuneLen c.toNat) := by
  have hv := char_valid c
  generalize c.toNat = n at hv
  unfold EncodeRune RuneLen
  by_cases h1 : n < 0x80
  · simp [h1, DecodeRune]
  · by_cases h2 : n < 0x800
    · simp only [h1, h2, if_true, if_false, List.cons_append, List.nil_append, DecodeRune, isCont]
      rw [if_neg (by omega), if_neg (by omega), if_pos (by omega), if_pos (by simp; omega)]
      simp only [Prod.mk.injEq, and_true]
      omega
    · by_cases h3 : n < 0x10000
      · simp only [h1, h2, h3, if_true, if_false, List.cons_append, List.nil_append, DecodeRune, isCont]
        rw [if_neg (by omega), if_neg (by omega), if_neg (by omega), if_pos (by omega)]
        rw [if_pos (by simp; split_ifs <;> omega)]
        simp only [Prod.mk.injEq, and_true]
        omega
      · simp only [h1, h2, h3, if_true, if_false, List.cons_append, List.nil_append, DecodeRune, isCont]
        rw [if_neg (by omega), if_neg (by omega), if_neg (by omega), if_neg (by omega), if_pos (by omega)]
        rw [if_pos (by simp; split_ifs <;> omega)]
        simp only [Prod.mk.injEq, and_true]
        omega

theorem encode_nil : encode [] = [] := rfl

theorem encode_cons (c : Char) (cs : List Char) :
    encode (c :: cs) = EncodeRune c.toNat ++ encode cs := by
  simp [encode]

theorem encode_append (xs ys : List Char) : encode (xs ++ ys) = encode xs ++ encode ys := by
  simp [encode]

theorem encode_length (cs : List Char) :
    (encode cs).length = (cs.map Char.utf8Size).sum := by
  induction cs with
  | nil => rfl
  | cons c cs ih =>
    simp [encode_cons, ih, EncodeRune_length, RuneLen_eq_utf8Size]

theorem EncodeRune_ne_nil (r : Nat) : EncodeRune r ≠ [] := by
  intro h
  have := EncodeRune_length r
  rw [h] at this
  unfold RuneLen at this
  split_ifs at this <;> simp at this

theorem ReadRune_of_ne_nil (br : GoString) (h : br ≠ []) :
    ReadRune br = some ((DecodeRune br).1, (DecodeRune br).2, br.drop (DecodeRune br).2) := by
  cases br with
  | nil => exact absurd rfl h
  | cons b s => rfl

theorem ReadRune_encode_cons (c : Char) (cs : List Char) :
    ReadRune (encode (c :: cs)) = some (c.toNat, c.utf8Size, encode cs) := by
  rw [encode_cons, ReadRune_of_ne_nil _ (by simp [EncodeRune_ne_nil]), DecodeRune_EncodeRune]
  simp only [List.drop_left' (EncodeRune_length c.toNat), RuneLen_eq_utf8Size]
  rw [List.drop_left' ((EncodeRune_length c.toNat).trans (RuneLen_eq_utf8Size c))]

theorem readRunes_encode (n : Nat) : ∀ (cs : List Char) (b : Nat), n ≤ cs.length →
    readRunes n (encode cs) b =
      .ok (b + ((cs.take n).map Char.utf8Size).sum, encode (cs.drop n)) := by
  induction n with
  | zero => intro cs b _; simp [readRunes]
  | succ n ih =>
    intro cs b h
    cases cs with
    | nil => simp at h
    | cons c cs =>
      simp only [readRunes, ReadRune_encode_cons]
      rw [ih cs _ (by simpa using h)]
      simp [Nat.add_assoc]

theorem readRunes_short (n : Nat) : ∀ (cs : List Char) (b : Nat), cs.length < n →
    readRunes n (encode cs) b = .panic "whut" := by
  induction n with
  | zero => intro cs b h; simp at h
  | succ n ih =>
    intro cs b h
    cases cs with
    | nil => simp [readRunes, encode, ReadRune]
    | cons c cs =>
      simp only [readRunes, ReadRune_encode_cons]
      exact ih cs _ (by simpa using h)

theorem Addr0_data (w w' : Win) (h : w.Addr0 = some w') : w'.data = encode w.body := by
  unfold Win.Addr0 at h
  split at h
  · cases h
    simp [Win.data, Win.openAddr]
    split <;> rfl
  · cases h

theorem runeToByte_ok (w : Win) (q0 q1 : Nat) (ha : w.addrOk = true) (h01 : q0 ≤ q1)
    (h1 : q1 ≤ w.body.length) :
    runeToByte w q0 q1 =
      .ok (((w.body.take q0).map Char.utf8Size).sum, ((w.body.take q1).map Char.utf8Size).sum) := by
  unfold runeToByte
  have hA : w.Addr0 = some { w.openAddr with addr := (0, 0) } := by simp [Win.Addr0, ha]
  rw [hA]
  simp only []
  rw [Addr0_data w _ hA, readRunes_encode q0 _ _ (by omega)]
  simp only [Res.bind]
  rw [readRunes_encode (q1 - q0) _ _ (by simp; omega)]
  simp only [Res.bind, Nat.zero_add, Res.ok.injEq, Prod.mk.injEq, true_and]
  have : q1 = q0 + (q1 - q0) := by omega
  conv_rhs => rw [this, List.take_add]
  simp

theorem runeToByte_short (w : Win) (q0 q1 : Nat) (ha : w.addrOk = true) (h01 : q0 ≤ q1)
    (h1 : w.body.length < q1) :
    runeToByte w q0 q1 = .panic "whut" := by
  unfold runeToByte
  have hA : w.Addr0 = some { w.openAddr with addr := (0, 0) } := by simp [Win.Addr0, ha]
  rw [hA]
  simp only []
  rw [Addr0_data w _ hA]
  by_cases h0 : q0 ≤ w.body.length
  · rw [readRunes_encode q0 _ _ h0]
    simp only [Res.bind]
    rw [readRunes_short (q1 - q0) _ _ (by simp; omega)]
  · rw [readRunes_short q0 _ _ (by omega)]
    rfl

/-! ## The handoff line -/

theorem ReadString_append (w rest : GoString) (h : 10 ∉ w) :
    ReadString 10 (w ++ 10 :: rest) = some (w ++ [10]) := by
  induction w with
  | nil => simp [ReadString]
  | cons b w ih =>
    have hb : b ≠ 10 := by
      intro hb; apply h; simp [hb]
    have hw : 10 ∉ w := by
      intro hw; apply h; simp [hw]
    simp [ReadString, hb, ih hw]

theorem ReadString_none (s : GoString) (h : 10 ∉ s) : ReadString 10 s = none := by
  induction s with
  | nil => rfl
  | cons b s ih =>
    have hb : b ≠ 10 := by
      intro hb; apply h; simp [hb]
    have hs : 10 ∉ s := by
      intro hs; apply h; simp [hs]
    simp [ReadString, hb, ih hs]

theorem changeWindow_line (w rest : GoString) (h : 10 ∉ w) :
    changeWindow (w ++ 10 :: rest) = .ok w := by
  simp [changeWindow, ReadString_append w rest h]

theorem getScopeLoop_ok (env : Env) (winid fname : GoString) (b0 b1 : Nat)
    (h : (getPositionInfo env winid).res = .ok (fname, b0, b1)) (arg : List GoString) :
    (getScopeLoop env winid arg).res =
      .ok (arg.map fun s => if s = lit "." then fname else s) := by
  induction arg with
  | nil => rfl
  | cons s rest ih =>
    by_cases hs : s = lit "."
    · simp [getScopeLoop, hs, bind_def, Run.bind, h, ih, pure_def]
    · simp [getScopeLoop, hs, bind_def, Run.bind, ih, pure_def]

/-! ## Window sessions -/

theorem getPositionInfo_none (env : Env) (idstr : GoString) (h : ParseInt idstr = none) :
    getPositionInfo env idstr = ⟨[], .panic "non-numerical winid"⟩ := by
  simp [getPositionInfo, h, goPanic]

theorem getPositionInfo_noWin (env : Env) (idstr : GoString) (id : Int)
    (h : ParseInt idstr = some id) (ho : env.Open id = none) :
    getPositionInfo env idstr = ⟨[.Open id], .fatal "Cannot open acme window: "⟩ := by
  simp [getPositionInfo, h, ho, fatalln, act, bind_def, Run.bind]

theorem getPositionInfo_win (env : Env) (idstr : GoString) (id : Int) (w : Win)
    (h : ParseInt idstr = some id) (ho : env.Open id = some w) :
    getPositionInfo env idstr = ⟨[.Open id], positionOf w⟩ := by
  simp only [getPositionInfo, h, ho, lift, act, bind_def, Run.bind]
  cases positionOf w <;> simp

theorem positionOf_dirty (w : Win) (ctl f4 : GoString) (hctl : w.ctl = some ctl)
    (hf : (Fields ctl)[4]? = some f4) (hnz : f4 ≠ lit "0") :
    (positionOf w).isFatal = true := by
  have hlen : (Fields ctl).length ≠ 0 := by
    intro h0
    rw [List.length_eq_zero] at h0
    rw [h0] at hf
    simp at hf
  unfold positionOf
  cases hn : getFilename w with
  | ok name =>
    simp [Res.bind, isDirty, hctl, hlen, hf, hnz, Res.isFatal]
  | fatal m => rfl
  | panic m => rfl
  | exit0 =>
    exfalso
    unfold getFilename at hn
    split at hn
    · cases hn
    · split at hn <;> cases hn

theorem positionOf_clean (w : Win) (r : GoString × Nat × Nat) (h : positionOf w = .ok r) :
    ∃ ctl, w.ctl = some ctl ∧ (Fields ctl)[4]? = some (lit "0") := by
  unfold positionOf at h
  cases hn : getFilename w with
  | ok name =>
    rw [hn] at h
    simp only [Res.bind] at h
    cases hd : isDirty w with
    | ok d =>
      rw [hd] at h
      simp only [] at h
      cases d with
      | true => simp at h
      | false =>
        unfold isDirty at hd
        split at hd
        · cases hd
        · rename_i ctl hctl
          refine ⟨ctl, hctl, ?_⟩
          simp only [] at hd
          split at hd
          · cases hd
          · split at hd
            · cases hd
            · rename_i f4 hf4
              simp at hd
              rw [hf4, hd]
    | fatal m => rw [hd] at h; cases h
    | panic m => rw [hd] at h; cases h
    | exit0 => rw [hd] at h; cases h
  | fatal m => rw [hn] at h; cases h
  | panic m => rw [hn] at h; cases h
  | exit0 => rw [hn] at h; cases h

theorem getPositionInfo_clean (env : Env) (idstr : GoString) (r : GoString × Nat × Nat)
    (h : (getPositionInfo env idstr).res = .ok r) :
    ∃ id w ctl, ParseInt idstr = some id ∧ env.Open id = some w ∧ w.ctl = some ctl ∧
      (Fields ctl)[4]? = some (lit "0") := by
  cases hp : ParseInt idstr with
  | none => rw [getPositionInfo_none env idstr hp] at h; cases h
  | some id =>
    cases ho : env.Open id with
    | none => rw [getPositionInfo_noWin env idstr id hp ho] at h; cases h
    | some w =>
      rw [getPositionInfo_win env idstr id w hp ho] at h
      obtain ⟨ctl, h1, h2⟩ := positionOf_clean w r h
      exact ⟨id, w, ctl, rfl, ho, h1, h2⟩

theorem getPositionInfo_trace (env : Env) (idstr : GoString) :
    (getPositionInfo env idstr).trace = [] ∨
      ∃ id, ParseInt idstr = some id ∧ (getPositionInfo env idstr).trace = [.Open id] := by
  cases hp : ParseInt idstr with
  | none => left; rw [getPositionInfo_none env idstr hp]
  | some id =>
    right
    refine ⟨id, rfl, ?_⟩
    cases ho : env.Open id with
    | none => rw [getPositionInfo_noWin env idstr id hp ho]
    | some w => rw [getPositionInfo_win env idstr id w hp ho]

theorem getPositionInfo_trace_open (env : Env) (idstr : GoString) (a : Action)
    (h : a ∈ (getPositionInfo env idstr).trace) :
    ∃ id, ParseInt idstr = some id ∧ a = .Open id := by
  rcases getPositionInfo_trace env idstr with h0 | ⟨id, hp, h1⟩
  · rw [h0] at h; cases h
  · rw [h1] at h
    simp at h
    exact ⟨id, hp, h⟩

theorem writeModes_eq (env : Env) (idstr : GoString) :
    writeModes env idstr =
      match (getPositionInfo env idstr).res with
      | .ok (fname, _, _) =>
        ⟨(getPositionInfo env idstr).trace ++
          [.Addr (lit ","), .Write (lit "data") (formatModes fname)], .ok ()⟩
      | .fatal m => ⟨(getPositionInfo env idstr).trace, .fatal m⟩
      | .panic m => ⟨(getPositionInfo env idstr).trace, .panic m⟩
      | .exit0 => ⟨(getPositionInfo env idstr).trace, .exit0⟩ := by
  unfold writeModes
  cases hgp : getPositionInfo env idstr with
  | mk tr r =>
    cases r with
    | ok p =>
      obtain ⟨fname, b0, b1⟩ := p
      simp [bind_def, Run.bind, act]
    | fatal m => simp [bind_def, Run.bind]
    | panic m => simp [bind_def, Run.bind]
    | exit0 => simp [bind_def, Run.bind]

/-- The trace and result of a query-trigger event, by the outcome of each stage. -/
theorem loopStep_query (env : Env) (st : LoopState) (e : Event) (h1 : e.C1 = 77)
    (h2 : e.C2 = 88) :
    loopStep env st (.event e) =
      match (getPositionInfo env st.winid).res with
      | .ok (fname, b0, b1) =>
        match st.oracl.ParseQueryPos (formatPos fname b0 b1) with
        | .error _ =>
          ⟨[.Addr (lit ","), .Write (lit "data") (lit "querying oracle\n")] ++
            (getPositionInfo env st.winid).trace ++
            [.ParseQueryPos (formatPos fname b0 b1)], .fatal "Cannot get position: "⟩
        | .ok qp =>
          ⟨[.Addr (lit ","), .Write (lit "data") (lit "querying oracle\n")] ++
            (getPositionInfo env st.winid).trace ++
            [.ParseQueryPos (formatPos fname b0 b1), .Query e.Text qp] ++
            (getPositionInfo env st.winid).trace ++
            [.Addr (lit ","), .Write (lit "data") (formatModes fname),
             .Write (lit "data")
               (match st.oracl.Query e.Text qp with
                | .error err => Sprintln [lit "Cannot query oracle: ", err]
                | .ok res => res),
             .Ctl (lit "clean")], .ok st⟩
      | .fatal m =>
        ⟨[.Addr (lit ","), .Write (lit "data") (lit "querying oracle\n")] ++
          (getPositionInfo env st.winid).trace, .fatal m⟩
      | .panic m =>
        ⟨[.Addr (lit ","), .Write (lit "data") (lit "querying oracle\n")] ++
          (getPositionInfo env st.winid).trace, .panic m⟩
      | .exit0 =>
        ⟨[.Addr (lit ","), .Write (lit "data") (lit "querying oracle\n")] ++
          (getPositionInfo env st.winid).trace, .exit0⟩ := by
  unfold loopStep
  simp only [h1, h2, and_self, if_true, writeModes_eq]
  cases hgp : getPositionInfo env st.winid with
  | mk tr r =>
    cases r with
    | ok p =>
      obtain ⟨fname, b0, b1⟩ := p
      simp only [bind_def, Run.bind, act, pure_def]
      cases hpq : st.oracl.ParseQueryPos (formatPos fname b0 b1) with
      | error err => simp [fatalln]
      | ok qp =>
        cases hq : st.oracl.Query e.Text qp with
        | error err => simp [hq]
        | ok res => simp [hq]
    | fatal m => simp [bind_def, Run.bind, act]
    | panic m => simp [bind_def, Run.bind, act]
    | exit0 => simp [bind_def, Run.bind, act]

/-! ## Decoding a slice -/

theorem rangeAux_nil (fuel : Nat) : rangeAux fuel [] = [] := by
  cases fuel <;> rfl

theorem rangeAux_succ (fuel : Nat) (s : GoString) (h : s ≠ []) :
    rangeAux (fuel + 1) s =
      ((DecodeRune s).1, s.take (DecodeRune s).2) :: rangeAux fuel (s.drop (DecodeRune s).2) := by
  cases s with
  | nil => exact absurd rfl h
  | cons b s => rfl

theorem RuneLen_pos (r : Nat) : 0 < RuneLen r := by
  unfold RuneLen
  split_ifs <;> omega

theorem rangeAux_encode (cs : List Char) : ∀ fuel, (encode cs).length ≤ fuel →
    rangeAux fuel (encode cs) = cs.map fun c => (c.toNat, EncodeRune c.toNat) := by
  induction cs with
  | nil => intro fuel _; simp [encode_nil, rangeAux_nil]
  | cons c cs ih =>
    intro fuel hf
    have hl := EncodeRune_length c.toNat
    have hp := RuneLen_pos c.toNat
    rw [encode_cons, List.length_append] at hf
    cases fuel with
    | zero => omega
    | succ fuel =>
      rw [encode_cons, rangeAux_succ _ _ (by simp [EncodeRune_ne_nil]), DecodeRune_EncodeRune]
      simp only [List.map_cons, List.drop_left' hl, List.take_left' hl]
      rw [ih fuel (by omega)]

theorem runes_encode (cs : List Char) : runes (encode cs) = cs.map Char.toNat := by
  simp [runes, range, rangeAux_encode cs _ (le_refl _)]

theorem encode_slice (s : List Char) (c0 c1 : Nat) (h01 : c0 ≤ c1) :
    ((encode s).drop ((s.take c0).map Char.utf8Size).sum).take
        (((s.take c1).map Char.utf8Size).sum - ((s.take c0).map Char.utf8Size).sum) =
      encode ((s.drop c0).take (c1 - c0)) := by
  have h1 : s.take c1 = s.take c0 ++ (s.drop c0).take (c1 - c0) := by
    have : c1 = c0 + (c1 - c0) := by omega
    conv_lhs => rw [this, List.take_add]
  have e0 : ((s.take c0).map Char.utf8Size).sum = (encode (s.take c0)).length :=
    (encode_length _).symm
  have e1 : ((s.take c1).map Char.utf8Size).sum - ((s.take c0).map Char.utf8Size).sum =
      (encode ((s.drop c0).take (c1 - c0))).length := by
    rw [h1, List.map_append, List.sum_append, Nat.add_sub_cancel_left, encode_length]
  have es : encode s = encode (s.take c0) ++
      (encode ((s.drop c0).take (c1 - c0)) ++ encode ((s.drop c0).drop (c1 - c0))) := by
    rw [← encode_append, ← encode_append, List.take_append_drop, List.take_append_drop]
  rw [e1, e0, es, List.drop_left, List.take_left]

/-! ## Window ids and the connection branch of the loop -/

theorem parseDigits_all : ∀ (s : GoString) (acc v : Nat), parseDigits s acc = some v →
    s.all isDigit = true := by
  intro s
  induction s with
  | nil => intro _ _ _; rfl
  | cons b s ih =>
    intro acc v h
    unfold parseDigits at h
    split at h
    · rename_i hb
      simp only [List.all_cons, isDigit, Bool.and_eq_true, decide_eq_true_eq]
      exact ⟨hb, by simpa [isDigit] using ih _ _ h⟩
    · cases h

theorem ParseInt_numeral (s : GoString) (id : Int) (h : ParseInt s = some id) :
    isNumeral s = true := by
  unfold ParseInt at h
  cases s with
  | nil => cases h
  | cons b t =>
    simp only [] at h
    unfold isNumeral
    by_cases hb : b = 43 ∨ b = 45
    · simp only [hb, if_true] at h ⊢
      cases t with
      | nil => cases h
      | cons d t =>
        simp only [] at h
        cases hd : parseDigits (d :: t) 0 with
        | none => rw [hd] at h; cases h
        | some un =>
          have := parseDigits_all _ _ _ hd
          simp [this]
    · simp only [hb, if_false] at h ⊢
      cases hd : parseDigits (b :: t) 0 with
      | none => rw [hd] at h; cases h
      | some un => exact parseDigits_all _ _ _ hd

theorem isNumeral_no_newline (s : GoString) (h : isNumeral s = true) : 10 ∉ s ∧ s ≠ [] := by
  cases s with
  | nil => cases h
  | cons b t =>
    refine ⟨?_, by simp⟩
    unfold isNumeral at h
    intro hm
    by_cases hb : b = 43 ∨ b = 45
    · simp only [hb, if_true, Bool.and_eq_true, List.all_eq_true] at h
      rcases List.mem_cons.mp hm with h10 | h10
      · omega
      · have := h.2 10 h10
        simp [isDigit] at this
    · simp only [hb, if_false, List.all_eq_true] at h
      have := h 10 hm
      simp [isDigit] at this

theorem loopStep_conn (env : Env) (st : LoopState) (c : Conn) (W rest : GoString)
    (hmsg : c.input = W ++ 10 :: rest) (hnl : 10 ∉ W) (hne : W ≠ []) :
    loopStep env st (.conn c) =
      match (getPositionInfo env W).res with
      | .ok (fname, _, _) =>
        ⟨[.ConnClose] ++ (getPositionInfo env W).trace ++
          [.Addr (lit ","), .Write (lit "data") (formatModes fname), .Ctl (lit "clean")],
          .ok { st with winid := W }⟩
      | .fatal m => ⟨[.ConnClose] ++ (getPositionInfo env W).trace, .fatal m⟩
      | .panic m => ⟨[.ConnClose] ++ (getPositionInfo env W).trace, .panic m⟩
      | .exit0 => ⟨[.ConnClose] ++ (getPositionInfo env W).trace, .exit0⟩ := by
  unfold loopStep
  simp only [hmsg, changeWindow_line W rest hnl, lift, bind_def, Run.bind, hne, if_false,
    writeModes_eq]
  cases hgp : getPositionInfo env W with
  | mk tr r =>
    cases r with
    | ok p =>
      obtain ⟨fname, b0, b1⟩ := p
      simp [bind_def, Run.bind, act, pure_def]
    | fatal m => simp [bind_def, Run.bind, act]
    | panic m => simp [bind_def, Run.bind, act]
    | exit0 => simp [bind_def, Run.bind, act]

theorem loopStep_conn_eof (env : Env) (st : LoopState) (c : Conn) (h : 10 ∉ c.input) :
    loopStep env st (.conn c) = ⟨[], .panic "EOF"⟩ := by
  simp [loopStep, changeWindow, ReadString_none c.input h, lift, bind_def, Run.bind]

theorem loopStep_conn_empty (env : Env) (st : LoopState) (c : Conn) (rest : GoString)
    (h : c.input = 10 :: rest) :
    loopStep env st (.conn c) = ⟨[], .panic "bad connection"⟩ := by
  have := changeWindow_line [] rest (by simp)
  simp only [List.nil_append] at this
  simp [loopStep, h, this, goPanic, lift, bind_def, Run.bind]

theorem runLoop_cons (env : Env) (st : LoopState) (i : Input) (is : List Input) :
    runLoop env st (i :: is) = (loopStep env st i).bind fun st => runLoop env st is := rfl

theorem runLoop_fatal (env : Env) (st : LoopState) (i : Input) (is : List Input)
    (h : (loopStep env st i).res.isFatal = true) :
    runLoop env st (i :: is) = loopStep env st i := by
  rw [runLoop_cons]
  cases hs : loopStep env st i with
  | mk tr r =>
    rw [hs] at h
    cases r with
    | ok a => cases h
    | fatal m => rfl
    | panic m => rfl
    | exit0 => cases h

/-! ## Invariants of one iteration -/

theorem loopStep_query_mem (env : Env) (st : LoopState) (i : Input) (mode : GoString)
    (qp : QueryPos) (h : Action.Query mode qp ∈ (loopStep env st i).trace) :
    ∃ r, (getPositionInfo env st.winid).res = .ok r := by
  cases i with
  | closed => simp [loopStep] at h
  | event e =>
    by_cases hq : e.C1 = 77 ∧ e.C2 = 88
    · rw [loopStep_query env st e hq.1 hq.2] at h
      cases hr : (getPositionInfo env st.winid).res with
      | ok r => exact ⟨r, rfl⟩
      | fatal m =>
        rw [hr] at h
        simp only [List.mem_append, List.mem_cons, List.mem_singleton, List.not_mem_nil,
          reduceCtorEq, false_or, or_false] at h
        obtain ⟨_, _, h'⟩ := getPositionInfo_trace_open env st.winid _ h
        cases h'
      | panic m =>
        rw [hr] at h
        simp only [List.mem_append, List.mem_cons, List.mem_singleton, List.not_mem_nil,
          reduceCtorEq, false_or, or_false] at h
        obtain ⟨_, _, h'⟩ := getPositionInfo_trace_open env st.winid _ h
        cases h'
      | exit0 =>
        rw [hr] at h
        simp only [List.mem_append, List.mem_cons, List.mem_singleton, List.not_mem_nil,
          reduceCtorEq, false_or, or_false] at h
        obtain ⟨_, _, h'⟩ := getPositionInfo_trace_open env st.winid _ h
        cases h'
    · exfalso
      simp only [loopStep, hq, if_false] at h
      split_ifs at h <;> simp [bind_def, Run.bind, act, pure_def] at h
  | conn c =>
    exfalso
    simp only [loopStep] at h
    cases hcw : changeWindow c.input with
    | ok str =>
      rw [hcw] at h
      simp only [lift, bind_def, Run.bind] at h
      by_cases hs : str = []
      · simp [hs, goPanic] at h
      · simp only [hs, if_false, writeModes_eq] at h
        cases hgp : getPositionInfo env str with
        | mk tr r =>
          have ht := getPositionInfo_trace_open env str (Action.Query mode qp)
          rw [hgp] at h ht
          cases r with
          | ok p =>
            obtain ⟨fname, b0, b1⟩ := p
            simp [bind_def, Run.bind, act, pure_def] at h
            obtain ⟨_, _, h1⟩ := ht h
            cases h1
          | fatal m =>
            simp [bind_def, Run.bind, act, pure_def] at h
            obtain ⟨_, _, h1⟩ := ht h
            cases h1
          | panic m =>
            simp [bind_def, Run.bind, act, pure_def] at h
            obtain ⟨_, _, h1⟩ := ht h
            cases h1
          | exit0 =>
            simp [bind_def, Run.bind, act, pure_def] at h
            obtain ⟨_, _, h1⟩ := ht h
            cases h1
    | fatal m => rw [hcw] at h; simp [lift, bind_def, Run.bind] at h
    | panic m => rw [hcw] at h; simp [lift, bind_def, Run.bind] at h
    | exit0 => rw [hcw] at h; simp [lift, bind_def, Run.bind] at h

theorem loopStep_event_state (env : Env) (st st' : LoopState) (e : Event)
    (h : (loopStep env st (.event e)).res = .ok st') : st' = st := by
  by_cases hq : e.C1 = 77 ∧ e.C2 = 88
  · rw [loopStep_query env st e hq.1 hq.2] at h
    cases hr : (getPositionInfo env st.winid).res with
    | ok p =>
      obtain ⟨fname, b0, b1⟩ := p
      rw [hr] at h
      simp only [] at h
      cases hp : st.oracl.ParseQueryPos (formatPos fname b0 b1) with
      | error err => rw [hp] at h; cases h
      | ok qp => rw [hp] at h; simp only [Res.ok.injEq] at h; exact h.symm
    | fatal m => rw [hr] at h; cases h
    | panic m => rw [hr] at h; cases h
    | exit0 => rw [hr] at h; cases h
  · simp only [loopStep, hq, if_false] at h
    split_ifs at h <;> simp [bind_def, Run.bind, act, pure_def] at h <;> exact h.symm

theorem runeToByte_congr (w w' : Win) (q0 q1 : Nat) (hb : w.body = w'.body)
    (ha : w.addrOk = w'.addrOk) : runeToByte w q0 q1 = runeToByte w' q0 q1 := by
  unfold runeToByte
  cases hk : w.addrOk with
  | false =>
    have h1 : w.Addr0 = none := by simp [Win.Addr0, hk]
    have h2 : w'.Addr0 = none := by simp [Win.Addr0, ← ha, hk]
    rw [h1, h2]
  | true =>
    have h1 : w.Addr0 = some { w.openAddr with addr := (0, 0) } := by simp [Win.Addr0, hk]
    have h2 : w'.Addr0 = some { w'.openAddr with addr := (0, 0) } := by
      simp [Win.Addr0, ← ha, hk]
    rw [h1, h2]
    simp only []
    rw [Addr0_data w _ h1, Addr0_data w' _ h2, hb]

theorem session_addr (w : Win) (hc : w.ctlOk = true) (ha : w.addrOk = true) :
    ∃ w2 w3, w.ReadAddr.1.CtlAddrDot = some w2 ∧ w2.ReadAddr = (w3, some w.dot) ∧
      w3.body = w.body ∧ w3.addrOk = w.addrOk := by
  obtain ⟨tag, ctl, body, dot, addr, addrOpen, ctlOk, addrOk⟩ := w
  simp only at hc ha
  subst hc ha
  cases addrOpen <;> simp [Win.ReadAddr, Win.openAddr, Win.CtlAddrDot]

theorem positionOf_eq (w : Win) (hc : w.ctlOk = true) (ha : w.addrOk = true) :
    positionOf w =
      (getFilename w).bind fun name =>
      (isDirty w).bind fun dirty =>
      if dirty then .fatal "window must be non-dirty to query. Save the file and try again"
      else (runeToByte w w.dot.1 w.dot.2).bind fun (b0, b1) => .ok (name, b0, b1) := by
  obtain ⟨w2, w3, h2, h3, hb, hk⟩ := session_addr w hc ha
  unfold positionOf
  simp only [h2, h3]
  rw [runeToByte_congr w3 w _ _ hb hk]

theorem positionOf_ok (w : Win) (tag ctl name : GoString) (q0 q1 : Nat)
    (htag : w.tag = some tag) (hname : (Fields tag)[0]? = some name)
    (hctl : w.ctl = some ctl) (hclean : (Fields ctl)[4]? = some (lit "0"))
    (hc : w.ctlOk = true) (ha : w.addrOk = true)
    (hdot : w.dot = (q0, q1)) (h01 : q0 ≤ q1) (h1 : q1 ≤ w.body.length) :
    positionOf w = .ok (name, ((w.body.take q0).map Char.utf8Size).sum,
      ((w.body.take q1).map Char.utf8Size).sum) := by
  have hlen : (Fields ctl).length ≠ 0 := by
    intro h0
    rw [List.length_eq_zero] at h0
    rw [h0] at hclean
    simp at hclean
  rw [positionOf_eq w hc ha, hdot, runeToByte_ok w q0 q1 ha h01 h1]
  simp [getFilename, htag, hname, Res.bind, isDirty, hctl, hlen, hclean]

/-! ## The claims -/

/-- C1: for a window that can be re-read from its start and character offsets
`q0 ≤ q1` within the body, `runeToByte` returns `(b0, b1)` where `b0` is the sum
of the UTF-8 widths of the first `q0` characters of the body and `b1` that of
the first `q1` characters, whatever the address of the window was before. -/
theorem runeToByte_offsets (w : Win) (q0 q1 : Nat) (ha : w.addrOk = true) (h01 : q0 ≤ q1)
    (h1 : q1 ≤ w.body.length) :
    runeToByte w q0 q1 =
      .ok (((w.body.take q0).map Char.utf8Size).sum,
        ((w.body.take q1).map Char.utf8Size).sum) :=
  runeToByte_ok w q0 q1 ha h01 h1

/-- Witness for `runeToByte_offsets`: in the body `aé€😀x`, characters 1 to 4 are bytes 1 to 10. -/
theorem runeToByte_offsets_witness :
    barWin.addrOk = true ∧ 1 ≤ 4 ∧ 4 ≤ barWin.body.length ∧
      runeToByte barWin 1 4 = .ok (1, 10) :=
  ⟨by decide, by decide, by decide,
    (runeToByte_offsets barWin 1 4 (by decide) (by decide) (by decide)).trans (by decide)⟩

/-- C2: offset round trip. For a character range `[c0, c1]` of the text `s` of a
window, the bytes `b0` to `b1` of the encoding of `s`, with `(b0, b1)` the
offsets returned by `runeToByte`, decode to the characters `c0` to `c1` of `s`,
in order. -/
theorem offset_round_trip (w : Win) (c0 c1 : Nat) (ha : w.addrOk = true) (h01 : c0 ≤ c1)
    (h1 : c1 ≤ w.body.length) :
    ∃ b0 b1, runeToByte w c0 c1 = .ok (b0, b1) ∧
      runes (((encode w.body).drop b0).take (b1 - b0)) =
        ((w.body.drop c0).take (c1 - c0)).map Char.toNat := by
  refine ⟨_, _, runeToByte_ok w c0 c1 ha h01 h1, ?_⟩
  rw [encode_slice w.body c0 c1 h01, runes_encode]

/-- Witness for `offset_round_trip`: characters 1 to 4 of `aé€😀x` are recovered from bytes 1 to
10 of its encoding. -/
theorem offset_round_trip_witness :
    barWin.addrOk = true ∧ 1 ≤ 4 ∧ 4 ≤ barWin.body.length ∧
      ∃ b0 b1, runeToByte barWin 1 4 = .ok (b0, b1) ∧
        runes (((encode barWin.body).drop b0).take (b1 - b0)) =
          ((barWin.body.drop 1).take (4 - 1)).map Char.toNat :=
  ⟨by decide, by decide, by decide,
    offset_round_trip barWin 1 4 (by decide) (by decide) (by decide)⟩

/-- C3: when the body holds fewer than `q1` characters, `runeToByte` ends the
process (the panic of the read loop, or `fatalln` when the window cannot be
re-read from its start) and returns no offsets. -/
theorem runeToByte_short_body (w : Win) (q0 q1 : Nat) (h01 : q0 ≤ q1)
    (h1 : w.body.length < q1) :
    (runeToByte w q0 q1).isFatal = true ∧ (∀ b, runeToByte w q0 q1 ≠ .ok b) ∧
      (w.addrOk = true → runeToByte w q0 q1 = .panic "whut") := by
  cases ha : w.addrOk with
  | true =>
    have := runeToByte_short w q0 q1 ha h01 h1
    rw [this]
    refine ⟨rfl, ?_, fun _ => rfl⟩
    intro b h
    cases h
  | false =>
    have : runeToByte w q0 q1 = .fatal "Cannot decode unicode: " := by
      simp [runeToByte, Win.Addr0, ha]
    rw [this]
    refine ⟨rfl, ?_, ?_⟩
    · intro b h
      cases h
    · intro h
      cases h

/-- Witness for `runeToByte_short_body`: the body `aé€😀x` has five characters,
offset 6 is beyond it. -/
theorem runeToByte_short_body_witness :
    1 ≤ 6 ∧ barWin.body.length < 6 ∧ (runeToByte barWin 1 6).isFatal = true ∧
      runeToByte barWin 1 6 = .panic "whut" :=
  ⟨by decide, by decide,
    (runeToByte_short_body barWin 1 6 (by decide) (by decide)).1,
    (runeToByte_short_body barWin 1 6 (by decide) (by decide)).2.2 (by decide)⟩

/-- C4: dirty-window rejection. When field 4 of the `ctl` record of the window
named by `idstr` is not `0`, `getPositionInfo` ends the process and returns no
position, and a query-trigger event handled against that window ends the
process without a query to the analyzer. In general, an iteration of the loop
issues a query only when field 4 of the `ctl` record of its target window is
`0`. -/
theorem dirty_window_rejected (env : Env) (idstr : GoString) (id : Int) (w : Win)
    (ctl f4 : GoString) (hid : ParseInt idstr = some id) (hopen : env.Open id = some w)
    (hctl : w.ctl = some ctl) (hf : (Fields ctl)[4]? = some f4) (hnz : f4 ≠ lit "0") :
    (getPositionInfo env idstr).res.isFatal = true ∧
    (∀ (st : LoopState) (e : Event), st.winid = idstr → e.C1 = 77 → e.C2 = 88 →
      (loopStep env st (.event e)).res.isFatal = true ∧
      ∀ mode qp, Action.Query mode qp ∉ (loopStep env st (.event e)).trace) ∧
    (∀ (env1 : Env) (st : LoopState) (i : Input) (mode : GoString) (qp : QueryPos),
      Action.Query mode qp ∈ (loopStep env1 st i).trace →
      ∃ id1 w1 ctl1, ParseInt st.winid = some id1 ∧ env1.Open id1 = some w1 ∧
        w1.ctl = some ctl1 ∧ (Fields ctl1)[4]? = some (lit "0")) := by
  have hgp : (getPositionInfo env idstr).res.isFatal = true := by
    rw [getPositionInfo_win env idstr id w hid hopen]
    exact positionOf_dirty w ctl f4 hctl hf hnz
  refine ⟨hgp, ?_, ?_⟩
  · intro st e hst h1 h2
    subst hst
    constructor
    · rw [loopStep_query env st e h1 h2]
      cases hr : (getPositionInfo env st.winid).res with
      | ok r => rw [hr] at hgp; cases hgp
      | fatal m => rfl
      | panic m => rfl
      | exit0 => rw [hr] at hgp; cases hgp
    · intro mode qp hmem
      obtain ⟨r, hr⟩ := loopStep_query_mem env st (.event e) mode qp hmem
      rw [hr] at hgp
      cases hgp
  · intro env1 st i mode qp hmem
    obtain ⟨r, hr⟩ := loopStep_query_mem env1 st i mode qp hmem
    exact getPositionInfo_clean env1 st.winid r hr

/-- Witness for `dirty_window_rejected`: window 9 has dirty field `1`. -/
theorem dirty_window_rejected_witness :
    ParseInt (lit "9") = some 9 ∧ editor.Open 9 = some dirtyWin ∧
    dirtyWin.ctl = some (lit "          9          30          29           0           1 ") ∧
    (Fields (lit "          9          30          29           0           1 "))[4]? =
      some (lit "1") ∧
    lit "1" ≠ lit "0" ∧
    (getPositionInfo editor (lit "9")).res.isFatal = true ∧
    (∀ (st : LoopState) (e : Event), st.winid = lit "9" → e.C1 = 77 → e.C2 = 88 →
      (loopStep editor st (.event e)).res.isFatal = true ∧
      ∀ mode qp, Action.Query mode qp ∉ (loopStep editor st (.event e)).trace) :=
  have h := dirty_window_rejected editor (lit "9") 9 dirtyWin
    (lit "          9          30          29           0           1 ") (lit "1")
    (by decide) (by decide) (by decide) (by decide) (by decide)
  ⟨by decide, by decide, by decide, by decide, by decide, h.1, h.2.1⟩

/-- C5: for a decimal id naming a window that opens and whose files can be read
and written, with `0` in field 4 of `ctl`, first tag field `name` and selection
`(q0, q1)` within the body, `getPositionInfo` returns `(name, b0, b1)` with
`(b0, b1)` the offsets `runeToByte` gives for `(q0, q1)`, and a query-trigger
event on that window passes the position `name:#b0,#b1` to the analyzer. -/
theorem position_info (env : Env) (idstr : GoString) (id : Int) (w : Win)
    (tag ctl name : GoString) (q0 q1 : Nat)
    (hid : ParseInt idstr = some id) (hopen : env.Open id = some w)
    (htag : w.tag = some tag) (hname : (Fields tag)[0]? = some name)
    (hctl : w.ctl = some ctl) (hclean : (Fields ctl)[4]? = some (lit "0"))
    (hc : w.ctlOk = true) (ha : w.addrOk = true)
    (hdot : w.dot = (q0, q1)) (h01 : q0 ≤ q1) (h1 : q1 ≤ w.body.length) :
    ∃ b0 b1, runeToByte w q0 q1 = .ok (b0, b1) ∧
      (getPositionInfo env idstr).res = .ok (name, b0, b1) ∧
      ∀ (st : LoopState) (e : Event), st.winid = idstr → e.C1 = 77 → e.C2 = 88 →
        Action.ParseQueryPos (name ++ lit ":#" ++ Itoa b0 ++ lit ",#" ++ Itoa b1) ∈
          (loopStep env st (.event e)).trace := by
  have hgp : (getPositionInfo env idstr).res = .ok (name,
      ((w.body.take q0).map Char.utf8Size).sum, ((w.body.take q1).map Char.utf8Size).sum) := by
    rw [getPositionInfo_win env idstr id w hid hopen]
    exact positionOf_ok w tag ctl name q0 q1 htag hname hctl hclean hc ha hdot h01 h1
  refine ⟨_, _, runeToByte_ok w q0 q1 ha h01 h1, hgp, ?_⟩
  intro st e hst h1 h2
  subst hst
  rw [loopStep_query env st e h1 h2, hgp]
  simp only []
  cases st.oracl.ParseQueryPos (formatPos name ((w.body.take q0).map Char.utf8Size).sum
      ((w.body.take q1).map Char.utf8Size).sum) <;> simp [formatPos]

/-- Witness for `position_info`: the scenario of window 5 on `/tmp/foo.go` with the ASCII
selection `[10, 14]`; the byte offsets are `(10, 14)` and the position is
`/tmp/foo.go:#10,#14`. -/
theorem position_info_witness :
    (getPositionInfo editor (lit "5")).res = .ok (lit "/tmp/foo.go", 10, 14) ∧
    ∀ (st : LoopState) (e : Event), st.winid = lit "5" → e.C1 = 77 → e.C2 = 88 →
      Action.ParseQueryPos (lit "/tmp/foo.go:#10,#14") ∈
        (loopStep editor st (.event e)).trace := by
  obtain ⟨b0, b1, hr, hgp, hl⟩ := position_info editor (lit "5") 5 fooWin
    (lit "/tmp/foo.go Del Snarf | Look ")
    (lit "          5          30          29           0           0 ")
    (lit "/tmp/foo.go") 10 14
    (by decide) (by decide) (by decide) (by decide) (by decide) (by decide) (by decide)
    (by decide) (by decide) (by decide) (by decide)
  have hv : runeToByte fooWin 10 14 = .ok (10, 14) := by decide
  rw [hv] at hr
  cases hr
  exact ⟨hgp, hl⟩

/-- C6: handoff round trip. For a window id `w` without a newline and a
connection that accepts the write, `sendChangeMessage` writes exactly one
message, `w` followed by one newline, and closes the connection; `changeWindow`
on a reader over those bytes returns `w`. -/
theorem handoff_round_trip (c : Conn) (w : GoString) (hc : c.writable = true)
    (h : 10 ∉ w) :
    sendChangeMessage c w = ⟨[.ConnWrite (w ++ [10]), .ConnClose], .ok ()⟩ ∧
    changeWindow (w ++ [10]) = .ok w := by
  refine ⟨?_, changeWindow_line w [] h⟩
  simp [sendChangeMessage, hc, Sprintln, act, bind_def, Run.bind]

/-- Witness for `handoff_round_trip`: the id `7`. -/
theorem handoff_round_trip_witness :
    (⟨[], true⟩ : Conn).writable = true ∧ 10 ∉ lit "7" ∧
    sendChangeMessage ⟨[], true⟩ (lit "7") =
      ⟨[.ConnWrite (lit "7" ++ [10]), .ConnClose], .ok ()⟩ ∧
    changeWindow (lit "7" ++ [10]) = .ok (lit "7") :=
  ⟨by decide, by decide, handoff_round_trip ⟨[], true⟩ (lit "7") (by decide) (by decide)⟩

/-- C7: when the bytes received on an accepted connection hold no newline, or
their first line is empty, or their first line is not a decimal window id (not
a decimal integer numeral, or not accepted by `strconv.ParseInt`, as a numeral
beyond the range of `int`), the iteration of the loop that handles the
connection ends the process (a panic), and no further input is processed. -/
theorem malformed_line_fatal (env : Env) (st : LoopState) (c : Conn)
    (h : 10 ∉ c.input ∨ ∃ line rest, c.input = line ++ 10 :: rest ∧ 10 ∉ line ∧
      (line = [] ∨ isNumeral line = false ∨ ParseInt line = none)) :
    (loopStep env st (.conn c)).res.isFatal = true ∧
    ∀ more, runLoop env st (.conn c :: more) = loopStep env st (.conn c) := by
  have hf : (loopStep env st (.conn c)).res.isFatal = true := by
    rcases h with h | ⟨line, rest, hmsg, hnl, hbad⟩
    · rw [loopStep_conn_eof env st c h]; rfl
    · by_cases hl : line = []
      · subst hl
        rw [loopStep_conn_empty env st c rest (by simpa using hmsg)]; rfl
      · have hp : ParseInt line = none := by
          rcases hbad with hbad | hn | hbad
          · exact absurd hbad hl
          · cases hp : ParseInt line with
            | none => rfl
            | some id =>
              have := ParseInt_numeral line id hp
              rw [hn] at this
              cases this
          · exact hbad
        rw [loopStep_conn env st c line rest hmsg hnl hl, getPositionInfo_none env line hp]
        rfl
  exact ⟨hf, fun more => runLoop_fatal env st (.conn c) more hf⟩

/-- Witness for `malformed_line_fatal`: the line `x5` is not a numeral. -/
theorem malformed_line_fatal_witness :
    (10 ∉ (⟨lit "x5\n", true⟩ : Conn).input ∨ ∃ line rest,
      (⟨lit "x5\n", true⟩ : Conn).input = line ++ 10 :: rest ∧ 10 ∉ line ∧
        (line = [] ∨ isNumeral line = false ∨ ParseInt line = none)) ∧
    (loopStep editor ⟨lit "5", analyzer⟩ (.conn ⟨lit "x5\n", true⟩)).res.isFatal = true ∧
    ∀ more, runLoop editor ⟨lit "5", analyzer⟩ (.conn ⟨lit "x5\n", true⟩ :: more) =
      loopStep editor ⟨lit "5", analyzer⟩ (.conn ⟨lit "x5\n", true⟩) :=
  have hyp : 10 ∉ (⟨lit "x5\n", true⟩ : Conn).input ∨ ∃ line rest,
      (⟨lit "x5\n", true⟩ : Conn).input = line ++ 10 :: rest ∧ 10 ∉ line ∧
        (line = [] ∨ isNumeral line = false ∨ ParseInt line = none) :=
    Or.inr ⟨lit "x5", [], by decide, by decide, Or.inr (Or.inl (by decide))⟩
  ⟨hyp, malformed_line_fatal editor ⟨lit "5", analyzer⟩ ⟨lit "x5\n", true⟩ hyp⟩

/-- C8: handoff updates target. After an accepted connection whose first line
is the decimal id `W2`, the loop goes on exactly when the menu can be redrawn
for `W2` (`getPositionInfo` returns), and then its target window id is `W2`; the
next query-trigger event then opens the window `W2` and no other window. An
event never changes the state of the loop. -/
theorem handoff_updates_target (env : Env) (st : LoopState) (c : Conn) (W2 rest : GoString)
    (id2 : Int) (hmsg : c.input = W2 ++ 10 :: rest) (hid : ParseInt W2 = some id2) :
    (loopStep env st (.conn c)).trace.take 2 = [.ConnClose, .Open id2] ∧
    (loopStep env st (.conn c)).res =
      (getPositionInfo env W2).res.bind (fun _ => .ok { st with winid := W2 }) ∧
    (∀ st1, (loopStep env st (.conn c)).res = .ok st1 →
      st1.winid = W2 ∧
      ∀ e : Event, e.C1 = 77 → e.C2 = 88 →
        Action.Open id2 ∈ (loopStep env st1 (.event e)).trace ∧
        ∀ i, Action.Open i ∈ (loopStep env st1 (.event e)).trace → i = id2) ∧
    (∀ (e : Event) (st1 : LoopState), (loopStep env st (.event e)).res = .ok st1 → st1 = st) := by
  obtain ⟨hnl, hne⟩ := isNumeral_no_newline W2 (ParseInt_numeral W2 id2 hid)
  have hstep := loopStep_conn env st c W2 rest hmsg hnl hne
  have hres : (loopStep env st (.conn c)).res =
      (getPositionInfo env W2).res.bind (fun _ => .ok { st with winid := W2 }) := by
    rw [hstep]
    cases (getPositionInfo env W2).res <;> rfl
  have htr2 : (getPositionInfo env W2).trace = [.Open id2] := by
    cases ho : env.Open id2 with
    | none => rw [getPositionInfo_noWin env W2 id2 hid ho]
    | some w => rw [getPositionInfo_win env W2 id2 w hid ho]
  have hpre : (loopStep env st (.conn c)).trace.take 2 = [.ConnClose, .Open id2] := by
    rw [hstep, htr2]
    cases (getPositionInfo env W2).res <;> rfl
  refine ⟨hpre, hres, ?_, fun e st1 h => loopStep_event_state env st st1 e h⟩
  intro st1 h1
  have hw : st1.winid = W2 := by
    rw [hres] at h1
    cases hr : (getPositionInfo env W2).res with
    | ok r =>
      rw [hr] at h1
      simp only [Res.bind, Res.ok.injEq] at h1
      rw [← h1]
    | fatal m => rw [hr] at h1; cases h1
    | panic m => rw [hr] at h1; cases h1
    | exit0 => rw [hr] at h1; cases h1
  refine ⟨hw, ?_⟩
  intro e he1 he2
  have htr : (getPositionInfo env st1.winid).trace = [.Open id2] := by
    rw [hw]
    exact htr2
  rw [loopStep_query env st1 e he1 he2, htr]
  cases (getPositionInfo env st1.winid).res with
  | ok p =>
    obtain ⟨fname, b0, b1⟩ := p
    simp only []
    cases st1.oracl.ParseQueryPos (formatPos fname b0 b1) <;> simp
  | fatal m => simp
  | panic m => simp
  | exit0 => simp

/-- Witness for `handoff_updates_target`: a primary targeting window 5 receives the id `7`. -/
theorem handoff_updates_target_witness :
    (⟨lit "7\n", true⟩ : Conn).input = lit "7" ++ 10 :: [] ∧ ParseInt (lit "7") = some 7 ∧
    (loopStep editor ⟨lit "5", analyzer⟩ (.conn ⟨lit "7\n", true⟩)).trace.take 2 =
      [.ConnClose, .Open 7] ∧
    (loopStep editor ⟨lit "5", analyzer⟩ (.conn ⟨lit "7\n", true⟩)).res.bind
        (fun st1 => .ok st1.winid) = .ok (lit "7") ∧
    (∀ st1, (loopStep editor ⟨lit "5", analyzer⟩ (.conn ⟨lit "7\n", true⟩)).res = .ok st1 →
      st1.winid = lit "7" ∧
      ∀ e : Event, e.C1 = 77 → e.C2 = 88 →
        Action.Open 7 ∈ (loopStep editor st1 (.event e)).trace ∧
        ∀ i, Action.Open i ∈ (loopStep editor st1 (.event e)).trace → i = 7) := by
  have h := handoff_updates_target editor ⟨lit "5", analyzer⟩ ⟨lit "7\n", true⟩ (lit "7") [] 7
    (by decide) (by decide)
  refine ⟨by decide, by decide, h.1, ?_, h.2.2.1⟩
  rw [h.2.1]
  have : (getPositionInfo editor (lit "7")).res = .ok (lit "/tmp/bar.go", 1, 10) := by decide
  rw [this]
  rfl

/-- C9: query failure does not crash the loop. For a query-trigger event whose
query the analyzer answers with an error, the iteration redraws the menu,
writes the error text to the result region, marks the window clean and goes on
with the same state; a following query-trigger event that the analyzer answers
is processed in the same way with the result written. The menu is redrawn and
the window marked clean in both cases. -/
theorem query_failure_continues (env : Env) (st : LoopState) (e e2 : Event)
    (fname : GoString) (b0 b1 : Nat) (qp : QueryPos) (err res : GoString)
    (he : e.C1 = 77 ∧ e.C2 = 88) (he2 : e2.C1 = 77 ∧ e2.C2 = 88)
    (hpos : (getPositionInfo env st.winid).res = .ok (fname, b0, b1))
    (hqp : st.oracl.ParseQueryPos (formatPos fname b0 b1) = .ok qp)
    (herr : st.oracl.Query e.Text qp = .error err)
    (hok : st.oracl.Query e2.Text qp = .ok res) :
    loopStep env st (.event e) =
      ⟨[.Addr (lit ","), .Write (lit "data") (lit "querying oracle\n")] ++
        (getPositionInfo env st.winid).trace ++
        [.ParseQueryPos (formatPos fname b0 b1), .Query e.Text qp] ++
        (getPositionInfo env st.winid).trace ++
        [.Addr (lit ","), .Write (lit "data") (formatModes fname),
         .Write (lit "data") (lit "Cannot query oracle: " ++ 32 :: err ++ [10]),
         .Ctl (lit "clean")], .ok st⟩ ∧
    loopStep env st (.event e2) =
      ⟨[.Addr (lit ","), .Write (lit "data") (lit "querying oracle\n")] ++
        (getPositionInfo env st.winid).trace ++
        [.ParseQueryPos (formatPos fname b0 b1), .Query e2.Text qp] ++
        (getPositionInfo env st.winid).trace ++
        [.Addr (lit ","), .Write (lit "data") (formatModes fname),
         .Write (lit "data") res,
         .Ctl (lit "clean")], .ok st⟩ ∧
    runLoop env st [.event e, .event e2] =
      ⟨(loopStep env st (.event e)).trace ++ (loopStep env st (.event e2)).trace, .ok st⟩ := by
  have h1 := loopStep_query env st e he.1 he.2
  have h2 := loopStep_query env st e2 he2.1 he2.2
  rw [hpos] at h1 h2
  simp only [hqp, herr, hok] at h1 h2
  refine ⟨by rw [h1]; simp [Sprintln], h2, ?_⟩
  simp only [runLoop, Run.bind, h1, h2, pure_def, List.append_nil]

/-- Witness for `query_failure_continues`: on window 5 the analyzer fails for `callers` and answers
`describe`. -/
theorem query_failure_continues_witness :
    (loopStep editor ⟨lit "5", analyzer⟩ (.event (click "callers"))).trace =
      [.Addr (lit ","), .Write (lit "data") (lit "querying oracle\n"), .Open 5,
       .ParseQueryPos (lit "/tmp/foo.go:#10,#14"), .Query (lit "callers") ⟨19⟩, .Open 5,
       .Addr (lit ","), .Write (lit "data") (formatModes (lit "/tmp/foo.go")),
       .Write (lit "data") (lit "Cannot query oracle:  no main package\n"),
       .Ctl (lit "clean")] ∧
    (runLoop editor ⟨lit "5", analyzer⟩
        [.event (click "callers"), .event (click "describe")]).trace =
      (loopStep editor ⟨lit "5", analyzer⟩ (.event (click "callers"))).trace ++
      [.Addr (lit ","), .Write (lit "data") (lit "querying oracle\n"), .Open 5,
       .ParseQueryPos (lit "/tmp/foo.go:#10,#14"), .Query (lit "describe") ⟨19⟩, .Open 5,
       .Addr (lit ","), .Write (lit "data") (formatModes (lit "/tmp/foo.go")),
       .Write (lit "data") (lit "defined here\n"),
       .Ctl (lit "clean")] ∧
    (runLoop editor ⟨lit "5", analyzer⟩
        [.event (click "callers"), .event (click "describe")]).res.bind
      (fun st1 => .ok st1.winid) = .ok (lit "5") := by
  have h := query_failure_continues editor ⟨lit "5", analyzer⟩ (click "callers")
    (click "describe") (lit "/tmp/foo.go") 10 14 ⟨19⟩ (lit "no main package")
    (lit "defined here\n") (by decide) (by decide) (by decide) rfl rfl rfl
  have ht : (getPositionInfo editor (lit "5")).trace = [.Open 5] := by decide
  obtain ⟨h1, h2, h3⟩ := h
  simp only [ht] at h1 h2
  refine ⟨?_, ?_, ?_⟩
  · rw [h1]; decide
  · rw [h3, h2, h1]; decide
  · rw [h3]; rfl

/-- C10: for a window on which `getPositionInfo` returns the file name `fname`,
`getScope` returns `[fname]` for an empty argument list, and otherwise the
arguments in order with every argument `.` replaced by `fname` and every other
argument unchanged. -/
theorem getScope_spec (env : Env) (arg : List GoString) (winid fname : GoString)
    (b0 b1 : Nat) (h : (getPositionInfo env winid).res = .ok (fname, b0, b1)) :
    (getScope env arg winid).res =
      .ok (if arg = [] then [fname] else arg.map fun s => if s = lit "." then fname else s) := by
  unfold getScope
  cases arg with
  | nil =>
    rw [getScopeLoop_ok env winid fname b0 b1 h]
    simp
  | cons s rest =>
    rw [if_neg (by simp), getScopeLoop_ok env winid fname b0 b1 h]
    simp

/-- Witness for `getScope_spec`: window 5 with the arguments `.`, `x`, `.`. -/
theorem getScope_spec_witness :
    (getPositionInfo editor (lit "5")).res = .ok (lit "/tmp/foo.go", 10, 14) ∧
    (getScope editor [lit ".", lit "x", lit "."] (lit "5")).res =
      .ok [lit "/tmp/foo.go", lit "x", lit "/tmp/foo.go"] ∧
    (getScope editor [] (lit "5")).res = .ok [lit "/tmp/foo.go"] :=
  ⟨by decide,
    (getScope_spec editor [lit ".", lit "x", lit "."] (lit "5") (lit "/tmp/foo.go") 10 14
      (by decide)).trans (by decide),
    (getScope_spec editor [] (lit "5") (lit "/tmp/foo.go") 10 14 (by decide)).trans (by decide)⟩

end Ao
